import Mathlib

/-!
# Verification of `sitetools.environ` (mikeboers/sitetools)

A shallow embedding of `src/sitetools/environ.py`.  The module stores a
"diff" (a mapping from environment-variable name to either a string value or
null, meaning "delete") as a JSON blob under the reserved environment key
`PYTHONENVIRONDIFF`:

* `freeze environ names` reads any existing diff from the reserved key,
  records `environ.get(name)` for each name, and writes the serialized
  updated diff back under the reserved key;
* `apply_diff` pops the reserved key from the live environment, parses it,
  and restores each recorded entry (setting the value, or deleting the
  variable when the recorded value is null).

Python dictionaries are modelled as insertion-ordered association lists with
dictionary update semantics (`dictSet` replaces the value in place for an
existing key, appends otherwise; lookups take the first occurrence, which is
the only one when keys are nodup).  A raised exception is modelled by
`Option` for `freeze` (which mutates nothing before any raise) and by
`Except Env Env` for `apply_diff`, whose error value carries the state of
the environment at the moment the exception escapes (the pop of the
reserved key happens before parsing, so that mutation is visible in the
error state).

`json.dumps` / `json.loads` are external stdlib functions; they are
modelled here (`_dumps` / `_loads`) as a serializer and parser for exactly
the JSON fragment this module traffics in: one-line objects whose values
are strings or `null`, with `", "` / `": "` separators as produced by
`json.dumps`, and string escaping for the quote and backslash characters.
A blob outside this fragment is a decode failure (`none`), modelling the
deserialization exception.
-/

namespace Sitetools

/-- An environment mapping: an insertion-ordered string-to-string dictionary. -/
abbrev Env := List (String × String)

/-- A diff: a dictionary from variable name to recorded value, where `none`
records that the variable was absent (and means "delete" at apply time). -/
abbrev Diff := List (String × Option String)

/-- Dictionary lookup (`d.get(k)`): the first binding of `k`, if any. -/
def dictGet {α : Type} (d : List (String × α)) (k : String) : Option α :=
  match d with
  | [] => none
  | (k1, v) :: rest => if k1 = k then some v else dictGet rest k

/-- Dictionary update (`d[k] = v`): replace the binding of `k` in place if
present, append it otherwise — Python dict assignment semantics. -/
def dictSet {α : Type} (d : List (String × α)) (k : String) (v : α) :
    List (String × α) :=
  match d with
  | [] => [(k, v)]
  | (k1, v1) :: rest =>
      if k1 = k then (k, v) :: rest else (k1, v1) :: dictSet rest k v

/-- Dictionary removal (`d.pop(k, None)` discarding the result): drop every
binding of `k` (there is at most one in a well-formed dictionary). -/
def dictPop {α : Type} (d : List (String × α)) (k : String) :
    List (String × α) :=
  match d with
  | [] => []
  | (k1, v1) :: rest =>
      if k1 = k then dictPop rest k else (k1, v1) :: dictPop rest k

/-- The keys of a dictionary, in order. -/
def dictKeys {α : Type} (d : List (String × α)) : List String :=
  d.map Prod.fst

/-- A dictionary is well-formed when no key occurs twice.  Every Python dict
satisfies this; the association lists built by this development preserve it. -/
def NodupKeys {α : Type} (d : List (String × α)) : Prop :=
  (dictKeys d).Nodup

instance {α : Type} [DecidableEq α] (d : List (String × α)) :
    Decidable (NodupKeys d) := by
  unfold NodupKeys; infer_instance

/-! ## The JSON fragment: serialization (modelling `json.dumps`) -/

/-- The opening brace character of a JSON object. -/
def braceL : Char := Char.ofNat 123

/-- The closing brace character of a JSON object. -/
def braceR : Char := Char.ofNat 125

/-- JSON string escaping of one character: quote and backslash are
backslash-escaped, every other character stands for itself. -/
def encodeChar (c : Char) : List Char :=
  if c = '"' then ['\\', '"']
  else if c = '\\' then ['\\', '\\']
  else [c]

/-- JSON string escaping of a character sequence. -/
def encodeChars (s : List Char) : List Char :=
  match s with
  | [] => []
  | c :: rest => encodeChar c ++ encodeChars rest

/-- A JSON string literal: escaped body between double quotes. -/
def stringChars (s : String) : List Char :=
  '"' :: encodeChars s.data ++ ['"']

/-- A JSON value of the diff fragment: `null` or a string literal. -/
def valueChars (v : Option String) : List Char :=
  match v with
  | none => ['n', 'u', 'l', 'l']
  | some s => stringChars s

/-- One `"key": value` member of the object. -/
def entryChars (e : String × Option String) : List Char :=
  stringChars e.1 ++ ':' :: ' ' :: valueChars e.2

/-- The members after the first, each preceded by `", "`, then the closing
brace. -/
def tailChars (d : Diff) : List Char :=
  match d with
  | [] => [braceR]
  | e :: rest => ',' :: ' ' :: entryChars e ++ tailChars rest

/-- Everything after the opening brace. -/
def bodyChars (d : Diff) : List Char :=
  match d with
  | [] => [braceR]
  | e :: rest => entryChars e ++ tailChars rest

/-- Model of `json.dumps` on a diff: `{"k": "v", "k2": null}` with the
default `", "` and `": "` separators. -/
def _dumps (d : Diff) : String :=
  String.mk (braceL :: bodyChars d)

/-! ## The JSON fragment: parsing (modelling `json.loads`) -/

/-- Parse the body of a JSON string literal after the opening quote, up to
and past the closing quote; returns the unescaped characters and the rest of
the input.  `none` models a decode exception. -/
def parseStringBody (cs : List Char) : Option (List Char × List Char) :=
  match cs with
  | [] => none
  | c :: rest =>
      if c = '"' then some ([], rest)
      else if c = '\\' then
        match rest with
        | [] => none
        | e :: rest2 =>
            if e = '"' ∨ e = '\\' then
              match parseStringBody rest2 with
              | some (s, r) => some (e :: s, r)
              | none => none
            else none
      else
        match parseStringBody rest with
        | some (s, r) => some (c :: s, r)
        | none => none

/-- Parse one JSON value of the diff fragment (`null` or a string literal). -/
def parseValue (cs : List Char) : Option (Option String × List Char) :=
  match cs with
  | 'n' :: 'u' :: 'l' :: 'l' :: rest => some (none, rest)
  | '"' :: rest =>
      match parseStringBody rest with
      | some (s, r) => some (some (String.mk s), r)
      | none => none
  | _ => none

/-- Parse one `"key": value` member. -/
def parseEntry (cs : List Char) : Option ((String × Option String) × List Char) :=
  match cs with
  | '"' :: rest =>
      match parseStringBody rest with
      | some (k, r1) =>
          match r1 with
          | ':' :: ' ' :: r2 =>
              match parseValue r2 with
              | some (v, r3) => some ((String.mk k, v), r3)
              | none => none
          | _ => none
      | none => none
  | _ => none

/-- Parse the members after the first: either the closing brace ends the
object, or a `", "`-separated further member follows.  Members accumulate by
dictionary update, so a duplicated key keeps its first position with the
last value, as in a Python dict built by `json.loads`.  The fuel bounds the
number of members and is spent one unit per member. -/
def parseTail (fuel : Nat) (acc : Diff) (cs : List Char) : Option Diff :=
  match fuel, cs with
  | _, [c] => if c = braceR then some acc else none
  | Nat.succ fuel1, ',' :: ' ' :: rest =>
      match parseEntry rest with
      | some (e, r) => parseTail fuel1 (dictSet acc e.1 e.2) r
      | none => none
  | _, _ => none

/-- Parse an object after its opening brace: empty object or first member
plus tail. -/
def parseAfterBrace (cs : List Char) : Option Diff :=
  if cs = [braceR] then some []
  else
    match parseEntry cs with
    | some (e, r) => parseTail cs.length (dictSet [] e.1 e.2) r
    | none => none

/-- Model of `json.loads` on the diff fragment: parses `_dumps` images back
to a diff; anything else is a decode failure (`none`), modelling the
deserialization exception. -/
def _loads (blob : String) : Option Diff :=
  match blob.data with
  | c :: rest => if c = braceL then parseAfterBrace rest else none
  | [] => none

/-! ## The program (`src/sitetools/environ.py`) -/

/-- `VARIABLE_NAME = 'PYTHONENVIRONDIFF'` — the reserved key. -/
def VARIABLE_NAME : String := "PYTHONENVIRONDIFF"

/-- `_existing_diff(environ)`: `blob = environ.get(VARIABLE_NAME);
return _loads(blob) if blob else {}`.  A falsy blob (absent key or empty
string) yields the empty diff; otherwise the blob is parsed, and a parse
failure is a raised exception (`none`). -/
def _existing_diff (environ : Env) : Option Diff :=
  match dictGet environ VARIABLE_NAME with
  | none => some []
  | some blob => if blob = "" then some [] else _loads blob

/-- `freeze(environ, names)`: read the existing diff, record
`environ.get(name)` for each name in order (dictionary update, so the last
occurrence of a repeated name wins), and write the serialized diff back
under the reserved key.  The mutated environment is returned; `none` models
the deserialization exception from `_existing_diff`, which is raised before
any mutation. -/
def freeze (environ : Env) (names : List String) : Option Env :=
  match _existing_diff environ with
  | none => none
  | some diff0 =>
      let diff := names.foldl (fun d name => dictSet d name (dictGet environ name)) diff0
      some (dictSet environ VARIABLE_NAME (_dumps diff))

/-- One iteration of the apply loop: `os.environ.pop(k, None)` when the
recorded value is null, `os.environ[k] = v` otherwise. -/
def applyEntry (env : Env) (e : String × Option String) : Env :=
  match e.2 with
  | none => dictPop env e.1
  | some v => dictSet env e.1 v

/-- `apply_diff()`: pop the reserved key from the live environment; a falsy
blob (absent or empty) means nothing to apply; otherwise parse the blob and
apply every entry.  The environment is threaded explicitly; `Except.error`
models the deserialization exception and carries the environment state at
the moment the exception escapes — the reserved key has already been popped
by then. -/
def apply_diff (env : Env) : Except Env Env :=
  let blob := dictGet env VARIABLE_NAME
  let env1 := dictPop env VARIABLE_NAME
  match blob with
  | none => Except.ok env1
  | some b =>
      if b = "" then Except.ok env1
      else
        match _loads b with
        | none => Except.error env1
        | some diff => Except.ok (diff.foldl applyEntry env1)

/-- `_setup()`: the startup hook, which just runs `apply_diff` once. -/
def _setup (env : Env) : Except Env Env :=
  apply_diff env

/-! ## Dictionary algebra -/

theorem dictGet_dictSet_self {α : Type} (d : List (String × α)) (k : String) (v : α) :
    dictGet (dictSet d k v) k = some v := by
  induction d with
  | nil => simp [dictGet, dictSet]
  | cons p rest ih =>
      obtain ⟨k1, v1⟩ := p
      by_cases h : k1 = k
      · subst h; simp [dictGet, dictSet]
      · simp [dictGet, dictSet, h, ih]

theorem dictGet_dictSet_other {α : Type} (d : List (String × α)) (k k2 : String)
    (v : α) (h : k2 ≠ k) : dictGet (dictSet d k v) k2 = dictGet d k2 := by
  have h2 : ¬ k = k2 := fun hh => h hh.symm
  induction d with
  | nil => simp [dictGet, dictSet, h2]
  | cons p rest ih =>
      obtain ⟨k1, v1⟩ := p
      by_cases h1 : k1 = k
      · subst h1
        simp [dictGet, dictSet, h2]
      · simp only [dictSet, if_neg h1, dictGet]
        by_cases h3 : k1 = k2
        · simp [h3]
        · simp [h3, ih]

theorem dictGet_dictPop_self {α : Type} (d : List (String × α)) (k : String) :
    dictGet (dictPop d k) k = none := by
  induction d with
  | nil => simp [dictGet, dictPop]
  | cons p rest ih =>
      obtain ⟨k1, v1⟩ := p
      by_cases h : k1 = k
      · simpa [dictPop, h] using ih
      · simpa [dictPop, h, dictGet] using ih

theorem dictGet_dictPop_other {α : Type} (d : List (String × α)) (k k2 : String)
    (h : k2 ≠ k) : dictGet (dictPop d k) k2 = dictGet d k2 := by
  induction d with
  | nil => simp [dictGet, dictPop]
  | cons p rest ih =>
      obtain ⟨k1, v1⟩ := p
      by_cases h1 : k1 = k
      · subst h1
        have h2 : ¬ k1 = k2 := fun hh => h hh.symm
        simpa [dictPop, dictGet, h2] using ih
      · by_cases h2 : k1 = k2
        · simp [dictPop, dictGet, h1, h2, h]
        · simpa [dictPop, dictGet, h1, h2] using ih

theorem dictGet_eq_none_iff {α : Type} (d : List (String × α)) (k : String) :
    dictGet d k = none ↔ k ∉ dictKeys d := by
  induction d with
  | nil => simp [dictGet, dictKeys]
  | cons p rest ih =>
      obtain ⟨k1, v1⟩ := p
      by_cases h : k1 = k
      · subst h; simp [dictGet, dictKeys]
      · have h2 : ¬ k = k1 := fun hh => h hh.symm
        simp only [dictGet, if_neg h, dictKeys, List.map_cons, List.mem_cons]
        rw [ih]
        unfold dictKeys
        constructor
        · intro hn
          intro hmem
          rcases hmem with hmem | hmem
          · exact h2 hmem
          · exact hn hmem
        · intro hn hmem
          exact hn (Or.inr hmem)

theorem dictPop_of_not_mem {α : Type} (d : List (String × α)) (k : String)
    (h : dictGet d k = none) : dictPop d k = d := by
  induction d with
  | nil => simp [dictPop]
  | cons p rest ih =>
      obtain ⟨k1, v1⟩ := p
      by_cases h1 : k1 = k
      · subst h1; simp [dictGet] at h
      · simp only [dictGet, if_neg h1] at h
        simp [dictPop, h1, ih h]

theorem mem_dictKeys_dictSet {α : Type} (d : List (String × α)) (k a : String)
    (v : α) : a ∈ dictKeys (dictSet d k v) ↔ a ∈ dictKeys d ∨ a = k := by
  induction d with
  | nil => simp [dictSet, dictKeys]
  | cons p rest ih =>
      obtain ⟨k1, v1⟩ := p
      by_cases h : k1 = k
      · subst h
        have hset : dictSet ((k1, v1) :: rest) k1 v = (k1, v) :: rest := by
          simp [dictSet]
        rw [hset]
        simp only [dictKeys, List.map_cons, List.mem_cons]
        tauto
      · simp only [dictSet, if_neg h, dictKeys, List.map_cons, List.mem_cons]
        unfold dictKeys at ih
        rw [ih]
        tauto

theorem nodupKeys_dictSet {α : Type} (d : List (String × α)) (k : String) (v : α)
    (h : NodupKeys d) : NodupKeys (dictSet d k v) := by
  induction d with
  | nil => simp [dictSet, NodupKeys, dictKeys]
  | cons p rest ih =>
      obtain ⟨k1, v1⟩ := p
      simp only [NodupKeys, dictKeys, List.map_cons, List.nodup_cons] at h
      by_cases h1 : k1 = k
      · subst h1
        simpa [dictSet, NodupKeys, dictKeys] using h
      · have ih1 := ih h.2
        simp only [dictSet, if_neg h1, NodupKeys, dictKeys, List.map_cons,
          List.nodup_cons]
        refine ⟨?_, ih1⟩
        intro hmem
        rcases (mem_dictKeys_dictSet rest k k1 v).mp hmem with h2 | h2
        · exact h.1 h2
        · exact h1 h2

theorem dictSet_append_of_not_mem {α : Type} (d : List (String × α)) (k : String)
    (v : α) (h : k ∉ dictKeys d) : dictSet d k v = d ++ [(k, v)] := by
  induction d with
  | nil => simp [dictSet]
  | cons p rest ih =>
      obtain ⟨k1, v1⟩ := p
      simp only [dictKeys, List.map_cons, List.mem_cons] at h
      push_neg at h
      have h1 : ¬ k1 = k := fun hh => h.1 hh.symm
      simp [dictSet, h1, ih h.2]

/-! ## Serialization round-trip -/

theorem mk_data_eq (s : String) : String.mk s.data = s := rfl

theorem parseStringBody_encodeChars (s : List Char) (r : List Char) :
    parseStringBody (encodeChars s ++ '"' :: r) = some (s, r) := by
  induction s with
  | nil =>
      simp only [encodeChars, List.nil_append]
      rw [parseStringBody.eq_def]
      simp
  | cons c s ih =>
      by_cases h1 : c = '"'
      · subst h1
        have hl : encodeChars ('"' :: s) ++ '"' :: r
            = '\\' :: '"' :: (encodeChars s ++ '"' :: r) := by
          simp [encodeChars, encodeChar]
        rw [hl, parseStringBody.eq_def]
        simp [ih]
      · by_cases h2 : c = '\\'
        · subst h2
          have hl : encodeChars ('\\' :: s) ++ '"' :: r
              = '\\' :: '\\' :: (encodeChars s ++ '"' :: r) := by
            simp [encodeChars, encodeChar]
          rw [hl, parseStringBody.eq_def]
          simp [ih]
        · have hl : encodeChars (c :: s) ++ '"' :: r
              = c :: (encodeChars s ++ '"' :: r) := by
            simp [encodeChars, encodeChar, h1, h2]
          rw [hl, parseStringBody.eq_def]
          simp [h1, h2, ih]

theorem parseValue_valueChars (v : Option String) (r : List Char) :
    parseValue (valueChars v ++ r) = some (v, r) := by
  cases v with
  | none => simp [valueChars, parseValue]
  | some s =>
      have h : valueChars (some s) ++ r = '"' :: (encodeChars s.data ++ '"' :: r) := by
        simp [valueChars, stringChars]
      rw [h]
      simp [parseValue, parseStringBody_encodeChars, mk_data_eq]

theorem parseEntry_entryChars (e : String × Option String) (r : List Char) :
    parseEntry (entryChars e ++ r) = some (e, r) := by
  obtain ⟨k, v⟩ := e
  have h : entryChars (k, v) ++ r
      = '"' :: (encodeChars k.data ++ '"' :: (':' :: ' ' :: (valueChars v ++ r))) := by
    simp [entryChars, stringChars]
  rw [h]
  simp [parseEntry, parseStringBody_encodeChars, parseValue_valueChars, mk_data_eq]

theorem length_le_tailChars (d : Diff) : d.length ≤ (tailChars d).length := by
  induction d with
  | nil => simp [tailChars]
  | cons e rest ih => simp [tailChars]; omega

theorem parseTail_tailChars (d : Diff) :
    ∀ (fuel : Nat) (acc : Diff), d.length ≤ fuel →
      parseTail fuel acc (tailChars d)
        = some (d.foldl (fun a e => dictSet a e.1 e.2) acc) := by
  induction d with
  | nil =>
      intro fuel acc _
      simp only [tailChars, List.foldl_nil]
      rw [parseTail.eq_def]
      cases fuel <;> simp
  | cons e rest ih =>
      intro fuel acc hfuel
      cases fuel with
      | zero => simp at hfuel
      | succ fuel1 =>
          have hlen : rest.length ≤ fuel1 := by
            simp at hfuel; omega
          have hl : tailChars (e :: rest)
              = ',' :: ' ' :: (entryChars e ++ tailChars rest) := by
            simp [tailChars]
          rw [hl, parseTail.eq_def]
          simp [parseEntry_entryChars, ih fuel1 _ hlen]

theorem foldl_dictSet_append (d : Diff) :
    ∀ acc : Diff, NodupKeys d → (∀ x ∈ d, x.1 ∉ dictKeys acc) →
      d.foldl (fun a e => dictSet a e.1 e.2) acc = acc ++ d := by
  induction d with
  | nil => intro acc _ _; simp
  | cons e rest ih =>
      intro acc hnd hdisj
      simp only [NodupKeys, dictKeys, List.map_cons, List.nodup_cons] at hnd
      have hset : dictSet acc e.1 e.2 = acc ++ [e] := by
        rw [dictSet_append_of_not_mem acc e.1 e.2 (hdisj e (List.mem_cons_self e rest))]
      have hdisj2 : ∀ x ∈ rest, x.1 ∉ dictKeys (acc ++ [e]) := by
        intro x hx
        simp only [dictKeys, List.map_append, List.mem_append, List.map_cons,
          List.map_nil, List.mem_singleton]
        intro hmem
        rcases hmem with hmem | hmem
        · exact hdisj x (List.mem_cons_of_mem e hx) hmem
        · exact hnd.1 (hmem ▸ List.mem_map_of_mem Prod.fst hx)
      calc (e :: rest).foldl (fun a x => dictSet a x.1 x.2) acc
          = rest.foldl (fun a x => dictSet a x.1 x.2) (acc ++ [e]) := by
            simp [hset]
        _ = (acc ++ [e]) ++ rest := ih (acc ++ [e]) hnd.2 hdisj2
        _ = acc ++ e :: rest := by simp

theorem bodyChars_cons_head (e : String × Option String) (rest : Diff) :
    ∃ tl, bodyChars (e :: rest) = '"' :: tl := by
  refine ⟨encodeChars e.1.data ++ ['"'] ++ (':' :: ' ' :: valueChars e.2) ++ tailChars rest, ?_⟩
  simp [bodyChars, entryChars, stringChars]

theorem parseAfterBrace_bodyChars (d : Diff) (hnd : NodupKeys d) :
    parseAfterBrace (bodyChars d) = some d := by
  cases d with
  | nil => simp [bodyChars, parseAfterBrace]
  | cons e rest =>
      obtain ⟨tl, htl⟩ := bodyChars_cons_head e rest
      have hne : bodyChars (e :: rest) ≠ [braceR] := by
        rw [htl]
        intro h
        have : '"' = braceR := by
          have := List.head_eq_of_cons_eq h
          exact this
        simp [braceR, Char.ofNat] at this
      have hbody : bodyChars (e :: rest) = entryChars e ++ tailChars rest := by
        simp [bodyChars]
      rw [parseAfterBrace, if_neg hne, hbody, parseEntry_entryChars]
      simp only []
      have hfuel : rest.length ≤ (entryChars e ++ tailChars rest).length := by
        have h1 := length_le_tailChars rest
        simp [List.length_append]
        omega
      rw [parseTail_tailChars rest _ _ hfuel]
      simp only [NodupKeys, dictKeys, List.map_cons, List.nodup_cons] at hnd
      have hset : dictSet ([] : Diff) e.1 e.2 = [e] := by simp [dictSet]
      rw [hset]
      have hdisj : ∀ x ∈ rest, x.1 ∉ dictKeys [e] := by
        intro x hx
        simp only [dictKeys, List.map_cons, List.map_nil, List.mem_singleton]
        intro hmem
        exact hnd.1 (hmem ▸ List.mem_map_of_mem Prod.fst hx)
      rw [foldl_dictSet_append rest [e] hnd.2 hdisj]
      simp

theorem loads_dumps (d : Diff) (hnd : NodupKeys d) : _loads (_dumps d) = some d := by
  have hdata : (_dumps d).data = braceL :: bodyChars d := rfl
  rw [_loads.eq_def, hdata]
  simp [parseAfterBrace_bodyChars d hnd]

theorem dumps_ne_empty (d : Diff) : _dumps d ≠ "" := by
  intro h
  have : (_dumps d).data = ("" : String).data := by rw [h]
  simp [_dumps] at this

/-! ## Well-formedness of parsed and accumulated diffs -/

theorem loads_empty : _loads "" = none := by
  rw [_loads.eq_def]

theorem parseTail_nodup (fuel : Nat) :
    ∀ (acc : Diff) (cs : List Char) (d : Diff),
      parseTail fuel acc cs = some d → NodupKeys acc → NodupKeys d := by
  induction fuel with
  | zero =>
      intro acc cs d h hacc
      rw [parseTail.eq_def] at h
      split at h
      · split at h
        · cases h; exact hacc
        · cases h
      · rename_i fuel2 rest heq
        exact absurd heq (by omega)
      · cases h
  | succ fuel1 ih =>
      intro acc cs d h hacc
      rw [parseTail.eq_def] at h
      split at h
      · split at h
        · cases h; exact hacc
        · cases h
      · rename_i fuel2 rest heq
        have hf : fuel2 = fuel1 := by omega
        subst hf
        cases hpe : parseEntry rest with
        | none => rw [hpe] at h; cases h
        | some er =>
            obtain ⟨e, r⟩ := er
            rw [hpe] at h
            exact ih (dictSet acc e.1 e.2) r d h (nodupKeys_dictSet acc e.1 e.2 hacc)
      · cases h

theorem parseAfterBrace_nodup (cs : List Char) (d : Diff)
    (h : parseAfterBrace cs = some d) : NodupKeys d := by
  rw [parseAfterBrace.eq_def] at h
  split at h
  · cases h; simp [NodupKeys, dictKeys]
  · cases hpe : parseEntry cs with
    | none => rw [hpe] at h; cases h
    | some er =>
        obtain ⟨e, r⟩ := er
        rw [hpe] at h
        have hnil : NodupKeys ([] : Diff) := by simp [NodupKeys, dictKeys]
        exact parseTail_nodup cs.length (dictSet [] e.1 e.2) r d h
          (nodupKeys_dictSet [] e.1 e.2 hnil)

theorem loads_nodup (b : String) (d : Diff) (h : _loads b = some d) : NodupKeys d := by
  rw [_loads.eq_def] at h
  split at h
  · split at h
    · exact parseAfterBrace_nodup _ d h
    · cases h
  · cases h

theorem existing_diff_nodup (env : Env) (d : Diff)
    (h : _existing_diff env = some d) : NodupKeys d := by
  rw [_existing_diff.eq_def] at h
  split at h
  · cases h; simp [NodupKeys, dictKeys]
  · split at h
    · cases h; simp [NodupKeys, dictKeys]
    · exact loads_nodup _ d h

theorem nodupKeys_foldl_dictSet (names : List String) (f : String → Option String) :
    ∀ d0 : Diff, NodupKeys d0 →
      NodupKeys (names.foldl (fun d n => dictSet d n (f n)) d0) := by
  induction names with
  | nil => intro d0 h; simpa using h
  | cons n rest ih =>
      intro d0 h
      simpa using ih (dictSet d0 n (f n)) (nodupKeys_dictSet d0 n (f n) h)

/-! ## The apply loop -/

theorem dictGet_applyEntry_other (env : Env) (e : String × Option String)
    (N : String) (h : e.1 ≠ N) : dictGet (applyEntry env e) N = dictGet env N := by
  obtain ⟨k, v⟩ := e
  cases v with
  | none => simpa [applyEntry] using dictGet_dictPop_other env k N (fun hh => h hh.symm)
  | some s => simpa [applyEntry] using dictGet_dictSet_other env k N s (fun hh => h hh.symm)

theorem dictGet_applyFold_not_mem (d : Diff) :
    ∀ (env : Env) (N : String), N ∉ dictKeys d →
      dictGet (d.foldl applyEntry env) N = dictGet env N := by
  induction d with
  | nil => intro env N _; simp
  | cons e rest ih =>
      intro env N h
      simp only [dictKeys, List.map_cons, List.mem_cons] at h
      push_neg at h
      have h1 : e.1 ≠ N := fun hh => h.1 hh.symm
      calc dictGet ((e :: rest).foldl applyEntry env) N
          = dictGet (rest.foldl applyEntry (applyEntry env e)) N := by simp
        _ = dictGet (applyEntry env e) N := ih (applyEntry env e) N h.2
        _ = dictGet env N := dictGet_applyEntry_other env e N h1

theorem dictGet_applyFold_mem (d : Diff) :
    ∀ (env : Env) (N : String) (w : Option String), NodupKeys d →
      dictGet d N = some w → dictGet (d.foldl applyEntry env) N = w := by
  induction d with
  | nil => intro env N w _ h; simp [dictGet] at h
  | cons e rest ih =>
      intro env N w hnd h
      obtain ⟨k, v⟩ := e
      simp only [NodupKeys, dictKeys, List.map_cons, List.nodup_cons] at hnd
      by_cases hk : k = N
      · subst hk
        have hvw : v = w := by simpa [dictGet] using h
        subst hvw
        have hnot : k ∉ dictKeys rest := hnd.1
        calc dictGet (((k, v) :: rest).foldl applyEntry env) k
            = dictGet (rest.foldl applyEntry (applyEntry env (k, v))) k := by simp
          _ = dictGet (applyEntry env (k, v)) k := dictGet_applyFold_not_mem rest _ k hnot
          _ = v := by
              cases v with
              | none => simp [applyEntry, dictGet_dictPop_self]
              | some s => simp [applyEntry, dictGet_dictSet_self]
      · simp only [dictGet, if_neg hk] at h
        calc dictGet (((k, v) :: rest).foldl applyEntry env) N
            = dictGet (rest.foldl applyEntry (applyEntry env (k, v))) N := by simp
          _ = w := ih (applyEntry env (k, v)) N w hnd.2 h

/-! ## Unfoldings of `freeze` and `apply_diff` -/

theorem freeze_eq (env : Env) (names : List String) (diff0 : Diff)
    (h : _existing_diff env = some diff0) :
    freeze env names = some (dictSet env VARIABLE_NAME
      (_dumps (names.foldl (fun d n => dictSet d n (dictGet env n)) diff0))) := by
  simp [freeze, h]

theorem freeze_none (env : Env) (names : List String)
    (h : _existing_diff env = none) : freeze env names = none := by
  simp [freeze, h]

theorem apply_diff_absent (env : Env) (h : dictGet env VARIABLE_NAME = none) :
    apply_diff env = Except.ok env := by
  simp [apply_diff, h, dictPop_of_not_mem env VARIABLE_NAME h]

theorem apply_diff_empty_blob (env : Env) (h : dictGet env VARIABLE_NAME = some "") :
    apply_diff env = Except.ok (dictPop env VARIABLE_NAME) := by
  simp [apply_diff, h]

theorem apply_diff_malformed (env : Env) (b : String)
    (hb : dictGet env VARIABLE_NAME = some b) (hne : b ≠ "") (hl : _loads b = none) :
    apply_diff env = Except.error (dictPop env VARIABLE_NAME) := by
  simp [apply_diff, hb, hne, hl]

theorem apply_diff_of_loads (env : Env) (b : String) (diff : Diff)
    (hb : dictGet env VARIABLE_NAME = some b) (hl : _loads b = some diff) :
    apply_diff env = Except.ok (diff.foldl applyEntry (dictPop env VARIABLE_NAME)) := by
  have hne : b ≠ "" := by
    intro h; rw [h, loads_empty] at hl; cases hl
  simp [apply_diff, hb, hne, hl]

theorem existing_diff_of_blob (env : Env) (b : String)
    (hb : dictGet env VARIABLE_NAME = some b) (hne : b ≠ "") :
    _existing_diff env = _loads b := by
  simp [_existing_diff, hb, hne]

theorem freeze_inv (env : Env) (names : List String) (E1 : Env)
    (h : freeze env names = some E1) :
    ∃ diff0, _existing_diff env = some diff0 ∧ NodupKeys diff0 ∧
      E1 = dictSet env VARIABLE_NAME
        (_dumps (names.foldl (fun d n => dictSet d n (dictGet env n)) diff0)) := by
  cases h0 : _existing_diff env with
  | none => rw [freeze_none env names h0] at h; cases h
  | some diff0 =>
      rw [freeze_eq env names diff0 h0] at h
      cases h
      exact ⟨diff0, rfl, existing_diff_nodup env diff0 h0, rfl⟩

theorem dictGet_dictSet_isSome (d : Diff) (k N : String) (v : Option String)
    (h : (dictGet d N).isSome) : (dictGet (dictSet d k v) N).isSome := by
  by_cases hk : N = k
  · subst hk; simp [dictGet_dictSet_self]
  · rwa [dictGet_dictSet_other d k N v hk]

theorem foldl_dictSet_isSome_pres (A : List String) (f : String → Option String)
    (N : String) :
    ∀ d0 : Diff, (dictGet d0 N).isSome →
      (dictGet (A.foldl (fun d n => dictSet d n (f n)) d0) N).isSome := by
  induction A with
  | nil => intro d0 h; simpa using h
  | cons a rest ih =>
      intro d0 h
      simpa using ih (dictSet d0 a (f a)) (dictGet_dictSet_isSome d0 a N (f a) h)

theorem foldl_dictSet_isSome_mem (A : List String) (f : String → Option String)
    (N : String) (hN : N ∈ A) :
    ∀ d0 : Diff, (dictGet (A.foldl (fun d n => dictSet d n (f n)) d0) N).isSome := by
  induction A with
  | nil => cases hN
  | cons a rest ih =>
      intro d0
      by_cases ha : N ∈ rest
      · simpa using ih ha (dictSet d0 a (f a))
      · have haN : a = N := by
          rcases List.mem_cons.mp hN with h | h
          · exact h.symm
          · exact absurd h ha
        subst haN
        have hs : (dictGet (dictSet d0 a (f a)) a).isSome := by
          simp [dictGet_dictSet_self]
        simpa using foldl_dictSet_isSome_pres rest f a (dictSet d0 a (f a)) hs

theorem foldl_dictSet_not_mem (A : List String) (f : String → Option String)
    (N : String) (hN : N ∉ A) :
    ∀ d0 : Diff, dictGet (A.foldl (fun d n => dictSet d n (f n)) d0) N = dictGet d0 N := by
  induction A with
  | nil => intro d0; simp
  | cons a rest ih =>
      intro d0
      have ha : N ≠ a := fun hh => hN (hh ▸ List.mem_cons_self a rest)
      have hrest : N ∉ rest := fun hh => hN (List.mem_cons_of_mem a hh)
      calc dictGet ((a :: rest).foldl (fun d n => dictSet d n (f n)) d0) N
          = dictGet (rest.foldl (fun d n => dictSet d n (f n)) (dictSet d0 a (f a))) N := by
            simp
        _ = dictGet (dictSet d0 a (f a)) N := ih hrest (dictSet d0 a (f a))
        _ = dictGet d0 N := dictGet_dictSet_other d0 a N (f a) ha

/-- The common core of the restore properties: if `freeze env [N]` succeeded
producing `E1`, then applying the diff in any environment whose reserved key
holds the same blob as `E1` succeeds and brings `N` back to its value (or
absence) in `env` at freeze time. -/
theorem freeze_apply_restores (env : Env) (N : String)
    (E1 : Env) (hfz : freeze env [N] = some E1) (env2 : Env)
    (hblob : dictGet env2 VARIABLE_NAME = dictGet E1 VARIABLE_NAME) :
    ∃ E2, apply_diff env2 = Except.ok E2 ∧ dictGet E2 N = dictGet env N := by
  obtain ⟨diff0, h0, hnd0, hE1⟩ := freeze_inv env [N] E1 hfz
  set diff := dictSet diff0 N (dictGet env N) with hdiff
  have hfold : [N].foldl (fun d n => dictSet d n (dictGet env n)) diff0 = diff := by
    simp [hdiff]
  rw [hfold] at hE1
  have hnd : NodupKeys diff := nodupKeys_dictSet diff0 N (dictGet env N) hnd0
  have hb2 : dictGet env2 VARIABLE_NAME = some (_dumps diff) := by
    rw [hblob, hE1, dictGet_dictSet_self]
  have hload : _loads (_dumps diff) = some diff := loads_dumps diff hnd
  refine ⟨diff.foldl applyEntry (dictPop env2 VARIABLE_NAME),
    apply_diff_of_loads env2 (_dumps diff) diff hb2 hload, ?_⟩
  have hmem : dictGet diff N = some (dictGet env N) := by
    rw [hdiff, dictGet_dictSet_self]
  exact dictGet_applyFold_mem diff (dictPop env2 VARIABLE_NAME) N (dictGet env N) hnd hmem

deriving instance DecidableEq for Except

/-! ## The claims -/

/-- C1: Round-trip restore — for every environment mapping `env`, variable
name `N` (not the reserved key) with current value `V`, after
`freeze env [N]` succeeds with result `E1` and `N` is then set to `v2`,
applying the recorded diff succeeds and sets `N` back to `V`. -/
theorem claim1_round_trip_restore (env : Env) (N V v2 : String)
    (hN : N ≠ VARIABLE_NAME) (hV : dictGet env N = some V) (E1 : Env)
    (hfz : freeze env [N] = some E1) :
    ∃ E2, apply_diff (dictSet E1 N v2) = Except.ok E2 ∧ dictGet E2 N = some V := by
  have hblob : dictGet (dictSet E1 N v2) VARIABLE_NAME = dictGet E1 VARIABLE_NAME :=
    dictGet_dictSet_other E1 N VARIABLE_NAME v2 (fun hh => hN hh.symm)
  obtain ⟨E2, hap, hget⟩ := freeze_apply_restores env N E1 hfz (dictSet E1 N v2) hblob
  exact ⟨E2, hap, by rw [hget, hV]⟩

/-- Witness for C1 at the docstring's own example: `DEMO=one` frozen, then
set to `two`, applying restores `one`. -/
theorem claim1_witness :
    ∃ E2, apply_diff (dictSet (dictSet [("DEMO", "one")] VARIABLE_NAME
        (_dumps [("DEMO", some "one")])) "DEMO" "two") = Except.ok E2 ∧
      dictGet E2 "DEMO" = some "one" :=
  claim1_round_trip_restore [("DEMO", "one")] "DEMO" "one" "two" (by decide) (by decide)
    (dictSet [("DEMO", "one")] VARIABLE_NAME (_dumps [("DEMO", some "one")])) (by decide)

/-- C2: Deletion restore — if `N` (not the reserved key) is absent at freeze
time, then after setting `N` to `"x"` the apply deletes it again; and
applying with `N` still absent (diff says delete, variable already gone)
also succeeds without raising. -/
theorem claim2_deletion_restore (env : Env) (N : String) (hN : N ≠ VARIABLE_NAME)
    (habs : dictGet env N = none) (E1 : Env) (hfz : freeze env [N] = some E1) :
    (∃ E2, apply_diff (dictSet E1 N "x") = Except.ok E2 ∧ dictGet E2 N = none) ∧
    (∃ E3, apply_diff E1 = Except.ok E3 ∧ dictGet E3 N = none) := by
  constructor
  · have hblob : dictGet (dictSet E1 N "x") VARIABLE_NAME = dictGet E1 VARIABLE_NAME :=
      dictGet_dictSet_other E1 N VARIABLE_NAME "x" (fun hh => hN hh.symm)
    obtain ⟨E2, hap, hget⟩ := freeze_apply_restores env N E1 hfz (dictSet E1 N "x") hblob
    exact ⟨E2, hap, by rw [hget, habs]⟩
  · obtain ⟨E3, hap, hget⟩ := freeze_apply_restores env N E1 hfz E1 rfl
    exact ⟨E3, hap, by rw [hget, habs]⟩

/-- Witness for C2: freeze the absent `DEMO` in an empty environment. -/
theorem claim2_witness :
    (∃ E2, apply_diff (dictSet (dictSet [] VARIABLE_NAME (_dumps [("DEMO", none)]))
        "DEMO" "x") = Except.ok E2 ∧ dictGet E2 "DEMO" = none) ∧
    (∃ E3, apply_diff (dictSet [] VARIABLE_NAME (_dumps [("DEMO", none)]))
        = Except.ok E3 ∧ dictGet E3 "DEMO" = none) :=
  claim2_deletion_restore [] "DEMO" (by decide) (by decide)
    (dictSet [] VARIABLE_NAME (_dumps [("DEMO", none)])) (by decide)

/-- C3 counterexample: the claim says the environment, including the
reserved key itself, is unchanged when the decode exception escapes — but
`apply_diff` pops the reserved key before parsing, so on the environment
holding only `PYTHONENVIRONDIFF=bogus` the exception escapes with the
environment already emptied, which differs from the original. -/
theorem claim3_counterexample :
    apply_diff [(VARIABLE_NAME, "bogus")] = Except.error ([] : Env)
      ∧ ([] : Env) ≠ [(VARIABLE_NAME, "bogus")] := by decide

/-- C3 amended: on a malformed blob `apply_diff` raises a decoding error,
and when the exception escapes no entry has been mutated *except* the
reserved key, which has already been popped (removed) by then. -/
theorem claim3_atomicity_amended (env : Env) (b : String)
    (hb : dictGet env VARIABLE_NAME = some b) (hne : b ≠ "") (hl : _loads b = none) :
    apply_diff env = Except.error (dictPop env VARIABLE_NAME) ∧
    dictGet (dictPop env VARIABLE_NAME) VARIABLE_NAME = none ∧
    ∀ k, k ≠ VARIABLE_NAME → dictGet (dictPop env VARIABLE_NAME) k = dictGet env k := by
  refine ⟨apply_diff_malformed env b hb hne hl,
    dictGet_dictPop_self env VARIABLE_NAME, ?_⟩
  intro k hk
  exact dictGet_dictPop_other env VARIABLE_NAME k hk

/-- Witness for the amended C3 on a two-entry environment with a corrupt
blob. -/
theorem claim3_witness :
    apply_diff [("A", "1"), (VARIABLE_NAME, "bogus")]
        = Except.error (dictPop [("A", "1"), (VARIABLE_NAME, "bogus")] VARIABLE_NAME) ∧
    dictGet (dictPop [("A", "1"), (VARIABLE_NAME, "bogus")] VARIABLE_NAME)
        VARIABLE_NAME = none ∧
    ∀ k, k ≠ VARIABLE_NAME →
      dictGet (dictPop [("A", "1"), (VARIABLE_NAME, "bogus")] VARIABLE_NAME) k
        = dictGet [("A", "1"), (VARIABLE_NAME, "bogus")] k :=
  claim3_atomicity_amended [("A", "1"), (VARIABLE_NAME, "bogus")] "bogus"
    (by decide) (by decide) (by decide)

/-- C4: No-op apply — when the reserved key is absent, `apply_diff` returns
the environment unchanged (every entry as before) and does not raise. -/
theorem claim4_noop_apply (env : Env) (h : dictGet env VARIABLE_NAME = none) :
    apply_diff env = Except.ok env :=
  apply_diff_absent env h

/-- Witness for C4. -/
theorem claim4_witness : apply_diff [("A", "1")] = Except.ok [("A", "1")] :=
  claim4_noop_apply [("A", "1")] (by decide)

/-- C5: Last-write-wins merge — freezing `N`, changing it to `v2`, and
freezing `N` again leaves a stored diff whose (unique, by nodup keys) entry
for `N` is the second captured value `v2`. -/
theorem claim5_last_write_wins (env : Env) (N : String) (hN : N ≠ VARIABLE_NAME)
    (E1 : Env) (hfz : freeze env [N] = some E1) (v2 : String) :
    ∃ E3, freeze (dictSet E1 N v2) [N] = some E3 ∧
      ∃ blob diff, dictGet E3 VARIABLE_NAME = some blob ∧ _loads blob = some diff ∧
        NodupKeys diff ∧ dictGet diff N = some (some v2) := by
  obtain ⟨diff0, h0, hnd0, hE1⟩ := freeze_inv env [N] E1 hfz
  have hfold : [N].foldl (fun d n => dictSet d n (dictGet env n)) diff0
      = dictSet diff0 N (dictGet env N) := by simp
  rw [hfold] at hE1
  have hnd1 : NodupKeys (dictSet diff0 N (dictGet env N)) :=
    nodupKeys_dictSet diff0 N _ hnd0
  have hb2 : dictGet (dictSet E1 N v2) VARIABLE_NAME
      = some (_dumps (dictSet diff0 N (dictGet env N))) := by
    rw [dictGet_dictSet_other E1 N VARIABLE_NAME v2 (fun hh => hN hh.symm), hE1,
      dictGet_dictSet_self]
  have hex2 : _existing_diff (dictSet E1 N v2) = some (dictSet diff0 N (dictGet env N)) := by
    rw [existing_diff_of_blob (dictSet E1 N v2) _ hb2 (dumps_ne_empty _)]
    exact loads_dumps _ hnd1
  have hv2 : dictGet (dictSet E1 N v2) N = some v2 := dictGet_dictSet_self E1 N v2
  have hfold2 : [N].foldl (fun d n => dictSet d n (dictGet (dictSet E1 N v2) n))
      (dictSet diff0 N (dictGet env N))
      = dictSet (dictSet diff0 N (dictGet env N)) N (some v2) := by
    simp [hv2]
  have hfz2 := freeze_eq (dictSet E1 N v2) [N] _ hex2
  rw [hfold2] at hfz2
  have hnd2 : NodupKeys (dictSet (dictSet diff0 N (dictGet env N)) N (some v2)) :=
    nodupKeys_dictSet _ N _ hnd1
  refine ⟨_, hfz2, _dumps (dictSet (dictSet diff0 N (dictGet env N)) N (some v2)),
    dictSet (dictSet diff0 N (dictGet env N)) N (some v2),
    dictGet_dictSet_self _ _ _, loads_dumps _ hnd2, hnd2, ?_⟩
  rw [dictGet_dictSet_self]

/-- Witness for C5: `DEMO=one` frozen, changed to `two`, frozen again — the
stored diff records `two`. -/
theorem claim5_witness :
    ∃ E3, freeze (dictSet (dictSet [("DEMO", "one")] VARIABLE_NAME
        (_dumps [("DEMO", some "one")])) "DEMO" "two") ["DEMO"] = some E3 ∧
      ∃ blob diff, dictGet E3 VARIABLE_NAME = some blob ∧ _loads blob = some diff ∧
        NodupKeys diff ∧ dictGet diff "DEMO" = some (some "two") :=
  claim5_last_write_wins [("DEMO", "one")] "DEMO" (by decide)
    (dictSet [("DEMO", "one")] VARIABLE_NAME (_dumps [("DEMO", some "one")]))
    (by decide) "two"

/-- C6: Merge across freeze calls — after `freeze env A` yields `E1` whose
stored diff is `diff1`, every name of `A` has an entry in `diff1`, and a
second `freeze E1 B` succeeds and leaves the entry of every name `N ∈ A`
with `N ∉ B` unchanged in the stored diff. -/
theorem claim6_merge_across_freezes (env : Env) (A B : List String) (E1 : Env)
    (hfz : freeze env A = some E1) (blob1 : String) (diff1 : Diff)
    (hb1 : dictGet E1 VARIABLE_NAME = some blob1) (hd1 : _loads blob1 = some diff1)
    (N : String) (hNA : N ∈ A) (hNB : N ∉ B) :
    (dictGet diff1 N).isSome ∧
    ∃ E2, freeze E1 B = some E2 ∧
      ∃ blob2 diff2, dictGet E2 VARIABLE_NAME = some blob2 ∧
        _loads blob2 = some diff2 ∧ dictGet diff2 N = dictGet diff1 N := by
  obtain ⟨diff0, h0, hnd0, hE1⟩ := freeze_inv env A E1 hfz
  have hndA : NodupKeys (A.foldl (fun d n => dictSet d n (dictGet env n)) diff0) :=
    nodupKeys_foldl_dictSet A _ diff0 hnd0
  have hb1A : dictGet E1 VARIABLE_NAME
      = some (_dumps (A.foldl (fun d n => dictSet d n (dictGet env n)) diff0)) := by
    rw [hE1, dictGet_dictSet_self]
  have hblob1 : blob1 = _dumps (A.foldl (fun d n => dictSet d n (dictGet env n)) diff0) := by
    rw [hb1] at hb1A
    exact Option.some.inj hb1A
  subst hblob1
  rw [loads_dumps _ hndA] at hd1
  have hdiff1 : A.foldl (fun d n => dictSet d n (dictGet env n)) diff0 = diff1 :=
    Option.some.inj hd1
  subst hdiff1
  refine ⟨foldl_dictSet_isSome_mem A _ N hNA diff0, ?_⟩
  have hex : _existing_diff E1
      = some (A.foldl (fun d n => dictSet d n (dictGet env n)) diff0) := by
    rw [existing_diff_of_blob E1 _ hb1A (dumps_ne_empty _)]
    exact loads_dumps _ hndA
  have hndB : NodupKeys (B.foldl (fun d n => dictSet d n (dictGet E1 n))
      (A.foldl (fun d n => dictSet d n (dictGet env n)) diff0)) :=
    nodupKeys_foldl_dictSet B _ _ hndA
  refine ⟨_, freeze_eq E1 B _ hex, _, _, dictGet_dictSet_self _ _ _,
    loads_dumps _ hndB, ?_⟩
  exact foldl_dictSet_not_mem B _ N hNB _

/-- Witness for C6 with `A = [DEMO]`, `B = [OTHER]`. -/
theorem claim6_witness :
    (dictGet [("DEMO", some "one")] "DEMO").isSome ∧
    ∃ E2, freeze (dictSet [("DEMO", "one")] VARIABLE_NAME
        (_dumps [("DEMO", some "one")])) ["OTHER"] = some E2 ∧
      ∃ blob2 diff2, dictGet E2 VARIABLE_NAME = some blob2 ∧
        _loads blob2 = some diff2 ∧
        dictGet diff2 "DEMO" = dictGet [("DEMO", some "one")] "DEMO" :=
  claim6_merge_across_freezes [("DEMO", "one")] ["DEMO"] ["OTHER"]
    (dictSet [("DEMO", "one")] VARIABLE_NAME (_dumps [("DEMO", some "one")]))
    (by decide) (_dumps [("DEMO", some "one")]) [("DEMO", some "one")]
    (by decide) (by decide) "DEMO" (by decide) (by decide)

/-- C7: Freeze on a corrupt existing diff — a non-empty unparseable reserved
value makes `freeze` raise a deserialization error; an absent reserved key
or an empty-string value starts from the empty diff and `freeze` succeeds. -/
theorem claim7_freeze_corrupt_diff (env : Env) (names : List String) :
    (∀ b, dictGet env VARIABLE_NAME = some b → b ≠ "" → _loads b = none →
      freeze env names = none) ∧
    (dictGet env VARIABLE_NAME = none →
      _existing_diff env = some [] ∧ (freeze env names).isSome) ∧
    (dictGet env VARIABLE_NAME = some "" →
      _existing_diff env = some [] ∧ (freeze env names).isSome) := by
  refine ⟨?_, ?_, ?_⟩
  · intro b hb hne hl
    apply freeze_none
    rw [existing_diff_of_blob env b hb hne, hl]
  · intro h
    have hex : _existing_diff env = some [] := by simp [_existing_diff, h]
    exact ⟨hex, by rw [freeze_eq env names [] hex]; simp⟩
  · intro h
    have hex : _existing_diff env = some [] := by simp [_existing_diff, h]
    exact ⟨hex, by rw [freeze_eq env names [] hex]; simp⟩

/-- Witness for C7: the corrupt branch at a concrete unparseable blob. -/
theorem claim7_witness : freeze [(VARIABLE_NAME, "bogus")] ["A"] = none :=
  (claim7_freeze_corrupt_diff [(VARIABLE_NAME, "bogus")] ["A"]).1 "bogus"
    (by decide) (by decide) (by decide)

/-- C8 counterexample: the claim quantifies over every live environment,
but when the stored diff itself records the reserved key (the spec's
"undefined behavior" of freezing the reserved key), applying re-creates the
reserved key, so it is not absent after one `apply_diff`. -/
theorem claim8_counterexample :
    apply_diff (dictSet [] VARIABLE_NAME (_dumps [(VARIABLE_NAME, some "x")]))
        = Except.ok [(VARIABLE_NAME, "x")] ∧
    dictGet [(VARIABLE_NAME, "x")] VARIABLE_NAME ≠ none := by decide

/-- C8 amended: for every live environment whose stored diff (if any parses)
does not itself record the reserved key, after one successful `apply_diff`
the reserved key is absent, and a second consecutive `apply_diff` returns
the environment unchanged and does not raise. -/
theorem claim8_single_consumption_amended (env env1 : Env)
    (hap : apply_diff env = Except.ok env1)
    (hres : ∀ b d, dictGet env VARIABLE_NAME = some b → _loads b = some d →
      dictGet d VARIABLE_NAME = none) :
    dictGet env1 VARIABLE_NAME = none ∧ apply_diff env1 = Except.ok env1 := by
  cases hb : dictGet env VARIABLE_NAME with
  | none =>
      rw [apply_diff_absent env hb] at hap
      cases hap
      exact ⟨hb, apply_diff_absent env hb⟩
  | some b =>
      by_cases hne : b = ""
      · subst hne
        rw [apply_diff_empty_blob env hb] at hap
        cases hap
        refine ⟨dictGet_dictPop_self env VARIABLE_NAME, ?_⟩
        exact apply_diff_absent _ (dictGet_dictPop_self env VARIABLE_NAME)
      · cases hl : _loads b with
        | none =>
            rw [apply_diff_malformed env b hb hne hl] at hap
            cases hap
        | some d =>
            rw [apply_diff_of_loads env b d hb hl] at hap
            cases hap
            have hnotmem : VARIABLE_NAME ∉ dictKeys d :=
              (dictGet_eq_none_iff d VARIABLE_NAME).mp (hres b d hb hl)
            have h1 : dictGet (d.foldl applyEntry (dictPop env VARIABLE_NAME))
                VARIABLE_NAME = none := by
              rw [dictGet_applyFold_not_mem d _ VARIABLE_NAME hnotmem]
              exact dictGet_dictPop_self env VARIABLE_NAME
            exact ⟨h1, apply_diff_absent _ h1⟩

/-- Witness for the amended C8: one apply of an empty stored diff empties
the environment; the second apply is a no-op. -/
theorem claim8_witness :
    dictGet ([] : Env) VARIABLE_NAME = none ∧
    apply_diff ([] : Env) = Except.ok ([] : Env) :=
  claim8_single_consumption_amended [(VARIABLE_NAME, _dumps [])] [] (by decide)
    (fun b d hb hl => by
      have hb0 : dictGet [(VARIABLE_NAME, _dumps [])] VARIABLE_NAME
          = some (_dumps []) := by decide
      rw [hb0] at hb
      have hb1 : _dumps [] = b := Option.some.inj hb
      rw [← hb1] at hl
      have hl0 : _loads (_dumps []) = some [] := by decide
      rw [hl0] at hl
      have hd : ([] : Diff) = d := Option.some.inj hl
      rw [← hd]
      decide)

/-- C9: Freeze frame condition — a successful `freeze` changes no entry
other than the reserved key (the in-place mutation of the environment is
modelled by returning the updated mapping). -/
theorem claim9_freeze_frame (env : Env) (names : List String) (E1 : Env)
    (hfz : freeze env names = some E1) :
    ∀ k, k ≠ VARIABLE_NAME → dictGet E1 k = dictGet env k := by
  obtain ⟨diff0, h0, hnd0, hE1⟩ := freeze_inv env names E1 hfz
  intro k hk
  rw [hE1]
  exact dictGet_dictSet_other env VARIABLE_NAME k _ hk

/-- Witness for C9 at a concrete environment and key. -/
theorem claim9_witness :
    dictGet (dictSet [("A", "1")] VARIABLE_NAME (_dumps [("B", none)])) "A"
      = dictGet [("A", "1")] "A" :=
  claim9_freeze_frame [("A", "1")] ["B"]
    (dictSet [("A", "1")] VARIABLE_NAME (_dumps [("B", none)])) (by decide)
    "A" (by decide)

/-- C10: `freeze` with an empty name collection on a mapping lacking the
reserved key still writes the reserved key, set to the serialization of the
empty diff — freeze is never a complete no-op. -/
theorem claim10_freeze_empty_names (env : Env)
    (h : dictGet env VARIABLE_NAME = none) :
    freeze env [] = some (dictSet env VARIABLE_NAME (_dumps [])) ∧
    dictGet (dictSet env VARIABLE_NAME (_dumps [])) VARIABLE_NAME
      = some (_dumps []) := by
  have hex : _existing_diff env = some [] := by simp [_existing_diff, h]
  have hfz := freeze_eq env [] [] hex
  simp only [List.foldl_nil] at hfz
  exact ⟨hfz, dictGet_dictSet_self env VARIABLE_NAME (_dumps [])⟩

/-- Witness for C10 on the empty environment. -/
theorem claim10_witness :
    freeze [] [] = some (dictSet [] VARIABLE_NAME (_dumps [])) ∧
    dictGet (dictSet [] VARIABLE_NAME (_dumps [])) VARIABLE_NAME
      = some (_dumps []) :=
  claim10_freeze_empty_names [] (by decide)

end Sitetools
